import Mathlib

/-!
Verification of the SapphireSuite UnitTestHelper library.

Shallow embedding of the assertion-recording and group-accounting engine of
the single-header unit-test helper:

* `src/UnitTestHelper.hpp` — the current header (`Sa::UTH`), modeled in the
  `UTH` namespace below: `Counter`, `Group`, the global engine state, the
  per-assertion pipeline shared by all test macros
  (`Intl::Update` / `Intl::ShouldComputeTest` / `Intl::ComputeTitle` /
  `Intl::ComputeParam` / `Intl::ComputeResult`), group begin/end, `Equals`,
  `ToString` and `Param::Log`.
* `src/SA-UnitTestHelper.hpp` — the legacy header (`Sa::UTH::Internal`),
  modeled in the `UTH.Old` namespace: its group stack and its
  `ComputeResult`, which assigns the global exit value on every reported
  assertion.

C++ `unsigned int` fields are modeled as `Nat` with arithmetic modulo `2^32`.
`bool` is `Bool` (`EXIT_SUCCESS = 0` gives `false`, `EXIT_FAILURE = 1` gives
`true` where the source stores exit codes in a `bool`).  Console and file
output and the user callbacks are modeled as an emitted list of `Event`s;
the log-file contents themselves are out of scope.  `std::stack::top()` /
`pop()` on an empty stack have no defined behavior in C++ (a narrow-contract
violation); they are modeled as `Except.error`.
-/

namespace UTH

/-- Modulus of C++ `unsigned int` arithmetic (32-bit wraparound). -/
def uintMod : Nat := 4294967296

/-- Exit code for a fully successful run (`EXIT_SUCCESS`). -/
def EXIT_SUCCESS : Nat := 0

/-- Exit code once at least one test failed (`EXIT_FAILURE`). -/
def EXIT_FAILURE : Nat := 1

/-- Pass/fail tally (`Sa::UTH::Counter`).  Both fields are C++
`unsigned int`, modeled as naturals updated modulo `2^32`. -/
structure Counter where
  success : Nat
  failure : Nat
deriving Repr, DecidableEq

/-- Model of `Sa::UTH::Counter::Total`: `success + failure` (unsigned sum). -/
def Counter.Total (c : Counter) : Nat :=
  (c.success + c.failure) % uintMod

/-- Model of `Sa::UTH::Counter::Update`: increment `success` when the
predicate holds, otherwise increment `failure`. -/
def Counter.Update (c : Counter) (pred : Bool) : Counter :=
  if pred then { c with success := (c.success + 1) % uintMod }
  else { c with failure := (c.failure + 1) % uintMod }

/-- Model of `Sa::UTH::Counter::operator+=`: component-wise addition. -/
def Counter.add (c rhs : Counter) : Counter :=
  { success := (c.success + rhs.success) % uintMod,
    failure := (c.failure + rhs.failure) % uintMod }

/-- Model of `Sa::UTH::Counter::IsEmpty`, exactly as the source writes it:
`return success != 0 && failure != 0;`. -/
def Counter.IsEmpty (c : Counter) : Bool :=
  c.success != 0 && c.failure != 0

-- Verbosity bit flags (`Sa::UTH::Verbosity`).
namespace Verbosity

/-- Output success results. -/
def Success : Nat := 1
/-- Output params' name. -/
def ParamsName : Nat := 2
/-- Output params' value on failure. -/
def ParamsFailure : Nat := 4
/-- Output params' value on success. -/
def ParamsSuccess : Nat := 8
/-- Output group start. -/
def GroupStart : Nat := 16
/-- Output group exit result. -/
def GroupExit : Nat := 32
/-- Output group counter on exit. -/
def GroupCount : Nat := 64
/-- Light verbosity value. -/
def Light : Nat := ParamsName ||| ParamsFailure ||| GroupExit
/-- Default verbosity value. -/
def Default : Nat :=
  Success ||| ParamsName ||| ParamsFailure ||| GroupStart ||| GroupExit ||| GroupCount

end Verbosity

/-- Model of the scalar `Sa::UTH::Equals(lhs, rhs)`: `lhs == rhs`.  The C++
template parameter `T` is instantiated at the rationals. -/
def Equals (lhs rhs : ℚ) : Bool :=
  lhs == rhs

/-- Model of the epsilon overload `Sa::UTH::Equals(lhs, rhs, epsilon)`:
`std::abs(lhs - rhs) < epsilon`. -/
def EqualsEps (lhs rhs epsilon : ℚ) : Bool :=
  decide (|lhs - rhs| < epsilon)

/-- Pair of param name and value (`Sa::UTH::Param`). -/
structure Param where
  name : String
  value : String
deriving Repr, DecidableEq

/-- Model of the `std::is_same<T, std::string>` branch of `Sa::UTH::ToString`:
a `std::string` argument is returned as its own debug string. -/
def ToString_string (s : String) : String := s

/-- Model of the final `else` branch of `Sa::UTH::ToString` (no arithmetic /
enum / pointer / member-`ToString` conversion available, `SA_CORE_IMPL`
unset): `return std::string();`. -/
def ToString_fallback : String := ""

/-- Warning text `Sa::UTH::Param::Log` prints for a param whose value string
is empty (the two `__SA_UTH_LOG_IN` pieces of the same output line). -/
def noDebugString : String :=
  "-No debug string-\tImplement ToString() in class or UTH::ToString template specialization."

/-- Character-level model of `Sa::UTH::Intl::IndentStr`: replace every
`'\n'` with `'\n'` followed by the current group tab string.  (The C++ loop
resumes searching after the inserted text; for tab strings containing no
newline, as produced by `Group::TabStr`, this is the same replacement.) -/
def indentChars (tab : List Char) : List Char → List Char
  | [] => []
  | c :: rest =>
    if c = '\n' then c :: (tab ++ indentChars tab rest)
    else c :: indentChars tab rest

/-- String-level wrapper of `indentChars` (`Sa::UTH::Intl::IndentStr`). -/
def IndentStr (tab s : String) : String :=
  ⟨indentChars tab.data s.data⟩

/-- Model of `Sa::UTH::Param::Log`: the list of output lines produced for a
param list, given the verbosity mask and the current group tab string.  For
each param: its name (when `Verbosity::ParamsName` is set), then either the
`-No debug string-` warning (when the value string is empty) or the
indented value. -/
def Param.Log (tabs : String) (verbosity : Nat) (params : List Param) : List String :=
  params.flatMap fun p =>
    (if (verbosity &&& Verbosity.ParamsName) != 0 then [tabs ++ p.name ++ ":"] else []) ++
    (if p.value = "" then [noDebugString] else [tabs ++ IndentStr tabs p.value])

/-! ### Legacy header model (`src/SA-UnitTestHelper.hpp`) -/

namespace Old

/-- Legacy `Sa::UTH::Group`: name and local exit flag only (no counter). -/
structure Group where
  name : String
  localExit : Bool := false
deriving Repr, DecidableEq

/-- Legacy engine state: global exit value, verbosity mask, group stack
(top at the head). -/
structure State where
  exit : Nat := EXIT_SUCCESS
  verbosity : Nat := 1 ||| 2 ||| 4
  groups : List Group := []
deriving Repr, DecidableEq

/-- Model of legacy `Sa::UTH::Internal::GroupUpdate`: when a group is open
and the predicate fails, set the top group's `localExit` to `EXIT_FAILURE`. -/
def GroupUpdate (gs : List Group) (pred : Bool) : List Group :=
  match gs with
  | [] => []
  | g :: rest => (if pred then g else { g with localExit := true }) :: rest

/-- Model of legacy `Sa::UTH::Internal::ShouldComputeTest`:
`!pred || (verbosity & Verbosity::Success)`. -/
def ShouldComputeTest (verbosity : Nat) (pred : Bool) : Bool :=
  !pred || ((verbosity &&& Verbosity.Success) != 0)

/-- Model of legacy `Sa::UTH::Internal::ComputeResult`: assigns the global
exit value on every call — `EXIT_SUCCESS` when the predicate holds,
`EXIT_FAILURE` otherwise. -/
def ComputeResult (s : State) (pred : Bool) : State :=
  { s with exit := if pred then EXIT_SUCCESS else EXIT_FAILURE }

/-- Legacy per-assertion pipeline shared by `SA_UTH_EQUALS` / `SA_UTH_SFUNC`
/ `SA_UTH_MFUNC` / `SA_UTH_OP`: `GroupUpdate(bRes)`, then, when
`ShouldComputeTest(bRes)`, title/param output and `ComputeResult(bRes)`. -/
def runAssertion (s : State) (pred : Bool) : State :=
  let s1 := { s with groups := GroupUpdate s.groups pred }
  if ShouldComputeTest s1.verbosity pred then ComputeResult s1 pred else s1

/-- Run of a predicate sequence through the legacy pipeline. -/
def runAssertions (s : State) (l : List Bool) : State :=
  l.foldl runAssertion s

/-- Legacy initial state (default verbosity
`Success | ParamsName | ParamsFailure`, exit `EXIT_SUCCESS`, no group). -/
def initState : State := {}

end Old

/-! ### Current header model (`src/UnitTestHelper.hpp`) -/

/-- Infos generated from a group of tests (`Sa::UTH::Group`): name, local
exit flag (`false` is `EXIT_SUCCESS`, `true` is `EXIT_FAILURE`; set once at
least one test of the group failed), counter of tests run in this group. -/
structure Group where
  name : String
  localExit : Bool := false
  count : Counter := ⟨0, 0⟩
deriving Repr, DecidableEq

/-- Observable report-sink invocations: console/file log output and the five
optional user callbacks. -/
inductive Event where
  | titleLog (pred : Bool)
  | titleCB (pred : Bool)
  | paramsLog
  | paramsCB
  | resultCB (pred : Bool)
  | groupBeginLog (n : String)
  | groupBeginCB (n : String)
  | groupEndLog (n : String)
  | groupEndCB (n : String)
deriving Repr, DecidableEq

/-- Process-wide mutable engine state of the current header: global exit
value (`Sa::UTH::exit`), verbosity mask, console/file log toggles, which
user callbacks are installed, the global assertion counter
(`Sa::UTH::Intl::globalCount`), the global group counter
(`Sa::UTH::Group::globalCount`), and the group stack (`Sa::UTH::Group::sGroups`,
top at the head). -/
structure State where
  exit : Nat := EXIT_SUCCESS
  verbosity : Nat := Verbosity.Default
  bCslLog : Bool := false
  bFileLog : Bool := false
  hasGroupBeginCB : Bool := false
  hasGroupEndCB : Bool := false
  hasTitleCB : Bool := false
  hasParamsCB : Bool := false
  hasResultCB : Bool := false
  globalCount : Counter := ⟨0, 0⟩
  groupGlobalCount : Counter := ⟨0, 0⟩
  sGroups : List Group := []
deriving Repr, DecidableEq

/-- State at program start: exit `EXIT_SUCCESS`, default verbosity, empty
counters, no open group, no callbacks, log toggles off
(`SA_UTH_DFLT_CSL_LOG` and `SA_UTH_DFLT_FILE_LOG` default to 0). -/
def initState : State := {}

/-- Model of `Sa::UTH::Intl::ShouldLog`: `bCslLog || bFileLog`. -/
def ShouldLog (s : State) : Bool :=
  s.bCslLog || s.bFileLog

/-- Model of the static `Sa::UTH::Group::Update`: when the stack is
non-empty, update the top group's counter from the predicate and set its
`localExit` to `EXIT_FAILURE` when the predicate fails. -/
def Group.Update (gs : List Group) (pred : Bool) : List Group :=
  match gs with
  | [] => []
  | g :: rest =>
    { g with count := g.count.Update pred,
             localExit := if pred then g.localExit else true } :: rest

/-- Model of `Sa::UTH::Intl::Update`: update the global counter, then the
innermost open group.  Runs unconditionally for every assertion. -/
def Intl.Update (s : State) (pred : Bool) : State :=
  { s with globalCount := s.globalCount.Update pred,
           sGroups := Group.Update s.sGroups pred }

/-- Model of `Sa::UTH::Intl::ShouldComputeTest`:
`!pred || (verbosity & Verbosity::Success)`. -/
def Intl.ShouldComputeTest (verbosity : Nat) (pred : Bool) : Bool :=
  !pred || ((verbosity &&& Verbosity.Success) != 0)

/-- Events of `Sa::UTH::Intl::ComputeTitle`: console/file title line when
logging is enabled, then the title callback when installed. -/
def Intl.ComputeTitle (s : State) (pred : Bool) : List Event :=
  (if ShouldLog s then [Event.titleLog pred] else []) ++
  (if s.hasTitleCB then [Event.titleCB pred] else [])

/-- Events of `Sa::UTH::Intl::ComputeParam`: nothing when neither logging
nor the params callback is active; otherwise, when
`(pred && ParamsSuccess) || (!pred && ParamsFailure)` holds, the params are
generated and emitted to the log (when enabled) and to the callback (when
installed). -/
def Intl.ComputeParam (s : State) (pred : Bool) : List Event :=
  if !ShouldLog s && !s.hasParamsCB then []
  else if (pred && ((s.verbosity &&& Verbosity.ParamsSuccess) != 0)) ||
          (!pred && ((s.verbosity &&& Verbosity.ParamsFailure) != 0)) then
    (if ShouldLog s then [Event.paramsLog] else []) ++
    (if s.hasParamsCB then [Event.paramsCB] else [])
  else []

/-- Model of `Sa::UTH::Intl::ComputeResult`: on a failing predicate set the
global exit value to `EXIT_FAILURE` (never assigned otherwise), and invoke
the result callback when installed.  (`SA_UTH_EXIT_ON_FAILURE` defaults to
0, so no immediate process exit.) -/
def Intl.ComputeResult (s : State) (pred : Bool) : State × List Event :=
  ({ s with exit := if pred then s.exit else EXIT_FAILURE },
   if s.hasResultCB then [Event.resultCB pred] else [])

/-- Model of `Sa::UTH::Intl::Exit`: the process exit value returned at the
end of `main` is the global exit value. -/
def Intl.Exit (s : State) : Nat :=
  s.exit

/-- Per-assertion pipeline shared by all current-header test macros
(`SA_UTH_EQ`, `SA_UTH_SF`, `SA_UTH_RSF`, `SA_UTH_MF`, `SA_UTH_RMF`,
`SA_UTH_OP`, `SA_UTH_ROP`): `Intl::Update(bRes)` always runs; then, only
when `Intl::ShouldComputeTest(bRes)` holds, title/params are formatted and
emitted and `Intl::ComputeResult(bRes)` runs. -/
def runAssertion (s : State) (pred : Bool) : State × List Event :=
  let s1 := Intl.Update s pred
  if Intl.ShouldComputeTest s1.verbosity pred then
    ((Intl.ComputeResult s1 pred).1,
     Intl.ComputeTitle s1 pred ++ Intl.ComputeParam s1 pred ++
       (Intl.ComputeResult s1 pred).2)
  else (s1, [])

/-- Run of a predicate sequence through the current-header pipeline,
collecting the emitted events in order. -/
def runAssertions (s : State) : List Bool → State × List Event
  | [] => (s, [])
  | p :: rest =>
    ((runAssertions (runAssertion s p).1 rest).1,
     (runAssertion s p).2 ++ (runAssertions (runAssertion s p).1 rest).2)

/-- Model of `Sa::UTH::Group::Spread`: spread the ended group `g` into its
parent — propagate `EXIT_FAILURE` and merge the counters. -/
def Group.Spread (g parent : Group) : Group :=
  { parent with
    localExit := if g.localExit then true else parent.localExit,
    count := parent.count.add g.count }

/-- Spread step of `Group::End`: when the remaining stack is non-empty, the
popped group is spread into the new top. -/
def spreadInto (g : Group) : List Group → List Group
  | [] => []
  | p :: rs => Group.Spread g p :: rs

/-- Events of `Sa::UTH::Group::End`: group-exit log line when
`Verbosity::GroupExit` is set and logging is enabled, then the group-end
callback when installed. -/
def groupEndEvents (s : State) (g : Group) : List Event :=
  (if ((s.verbosity &&& Verbosity.GroupExit) != 0) && ShouldLog s
   then [Event.groupEndLog g.name] else []) ++
  (if s.hasGroupEndCB then [Event.groupEndCB g.name] else [])

/-- Model of `Sa::UTH::Group::Begin`: group-start log line (before the push,
when enabled), push a fresh group `{name, EXIT_SUCCESS, {0, 0}}`, then the
group-begin callback when installed. -/
def Group.Begin (s : State) (n : String) : State × List Event :=
  ({ s with sGroups := ⟨n, false, ⟨0, 0⟩⟩ :: s.sGroups },
   (if ((s.verbosity &&& Verbosity.GroupStart) != 0) && ShouldLog s
    then [Event.groupBeginLog n] else []) ++
   (if s.hasGroupBeginCB then [Event.groupBeginCB n] else []))

/-- Model of `Sa::UTH::Group::End`: pop the top group, spread it into the
new top when one exists, emit the group-end report, count the popped group
into the global group counter (one success when its `localExit` is
`EXIT_SUCCESS`, else one failure), and return the popped group.
`std::stack::top()`/`pop()` on an empty stack have no defined behavior in
C++; that case is modeled as `Except.error`. -/
def Group.End (s : State) : Except String (Group × State × List Event) :=
  match s.sGroups with
  | [] => .error "Group::End called with no group begun"
  | g :: rest =>
    .ok (g,
         { s with sGroups := spreadInto g rest,
                  groupGlobalCount := s.groupGlobalCount.Update (!g.localExit) },
         groupEndEvents s g)

/-- Iterated `Counter::Update` over a predicate sequence. -/
def foldUpdate (c : Counter) (l : List Bool) : Counter :=
  l.foldl Counter.Update c

/-- Scenario of claim C4: `Begin(A)`, assertions `p1`, `Begin(B)`,
assertions `p2`, `End` (returning B's group), assertions `p3`, `End`
(returning A's group). -/
def run4 (s : State) (a b : String) (p1 p2 p3 : List Bool) : Option (Group × Group) :=
  let s1 := (Group.Begin s a).1
  let s2 := (runAssertions s1 p1).1
  let s3 := (Group.Begin s2 b).1
  let s4 := (runAssertions s3 p2).1
  match Group.End s4 with
  | .error _ => none
  | .ok (gB, s5, _) =>
    let s6 := (runAssertions s5 p3).1
    match Group.End s6 with
    | .error _ => none
    | .ok (gA, _, _) => some (gB, gA)

/-- Well-nested test program item: a single assertion, or a named group of
nested items (`Group::Begin`, the items, `Group::End`). -/
inductive Item where
  | assert (pred : Bool)
  | group (n : String) (items : List Item)
deriving Repr

/-- Predicates of all assertions recorded in an item list, directly or in a
nested child group, in execution order. -/
def assertsOf : List Item → List Bool
  | [] => []
  | Item.assert p :: rest => p :: assertsOf rest
  | Item.group _ items :: rest => assertsOf items ++ assertsOf rest
termination_by l => sizeOf l

/-- State evolution of a well-nested item run: an assertion goes through the
per-assertion pipeline; a group runs `Group::Begin`, its nested items, then
`Group::End`.  (The `Group::End` error case is unreachable here: the group
just begun is still on the stack.) -/
def runItemsSt (s : State) : List Item → State
  | [] => s
  | Item.assert p :: rest => runItemsSt (runAssertion s p).1 rest
  | Item.group nm items :: rest =>
    match Group.End (runItemsSt (Group.Begin s nm).1 items) with
    | .ok (_, s3, _) => runItemsSt s3 rest
    | .error _ => runItemsSt (Group.Begin s nm).1 items
termination_by l => sizeOf l

/-- Run of one named group with body `items` from an arbitrary state,
returning the group popped by `Group::End`. -/
def runGroup (s : State) (n : String) (items : List Item) : Option Group :=
  match Group.End (runItemsSt (Group.Begin s n).1 items) with
  | .ok (g, _, _) => some g
  | .error _ => none

/-! ### Claims on the pure value types -/

/-- C2 (code bug evaluated at the failing inputs): `Counter::IsEmpty` as
written returns `false` on the freshly-constructed counter `{0, 0}` — the
counter with no recorded result, which the claim says must be the empty
one — and returns `true` on `{1, 1}`, a counter with two recorded results;
it also returns `false` on `{3, 0}` although results were recorded. -/
theorem isEmpty_inverted :
    Counter.IsEmpty ⟨0, 0⟩ = false ∧
    Counter.IsEmpty ⟨1, 1⟩ = true ∧
    Counter.IsEmpty ⟨3, 0⟩ = false := by
  exact ⟨rfl, rfl, rfl⟩

/-- C3 (code bug evaluated at the failing input): in the legacy header, with
its default verbosity (which has `Verbosity::Success` set), a failing
assertion sets the global exit value to `EXIT_FAILURE`, but a subsequent
passing assertion is reported and its `ComputeResult(true)` assigns
`EXIT_SUCCESS` again — the flag is not sticky, contradicting the header's
own documentation that `UTH::exit` equals `EXIT_FAILURE` if at least one
test failed. -/
theorem old_exit_reset_on_pass :
    (Old.runAssertions Old.initState [false]).exit = EXIT_FAILURE ∧
    (Old.runAssertions Old.initState [false, true]).exit = EXIT_SUCCESS := by
  exact ⟨rfl, rfl⟩

/-- C7: the epsilon variant of `Equals` is a strict, non-inclusive
threshold: it holds iff `|lhs - rhs| < epsilon`; consequently
`Equals(x, x + eps, eps)` is false for every `x` (and every `eps`), and
`Equals(x, x, eps)` is true for every positive `eps`. -/
theorem equals_epsilon_strict :
    (∀ l r e : ℚ, EqualsEps l r e = true ↔ |l - r| < e) ∧
    (∀ x e : ℚ, EqualsEps x (x + e) e = false) ∧
    (∀ x e : ℚ, 0 < e → EqualsEps x x e = true) := by
  refine ⟨fun l r e => by simp [EqualsEps], fun x e => ?_, fun x e he => ?_⟩
  · simp only [EqualsEps, decide_eq_false_iff_not, not_lt]
    have hx : x - (x + e) = -e := by ring
    rw [hx, abs_neg]
    exact le_abs_self e
  · simp only [EqualsEps, decide_eq_true_iff]
    simpa using he

/-- Witness for C7 at concrete inputs: `1` and `1 + 1/2` are exactly `1/2`
apart and are not epsilon-equal for epsilon `1/2`, while `1` is
epsilon-equal to itself. -/
theorem equals_epsilon_strict_witness :
    EqualsEps 1 (1 + 1/2) (1/2) = false ∧ EqualsEps 1 1 (1/2) = true :=
  ⟨equals_epsilon_strict.2.1 1 (1/2),
   equals_epsilon_strict.2.2 1 (1/2) (by norm_num)⟩

/-- C9: `Counter` merge (`operator+=`) is component-wise addition (modulo
`2^32`, the width of the unsigned fields); `{0, 0}` is its identity on every
counter whose fields are in unsigned range (every counter the library can
build); and merge is associative and commutative on the resulting values. -/
theorem counter_merge_algebra :
    (∀ a b : Counter,
      (a.add b).success = (a.success + b.success) % uintMod ∧
      (a.add b).failure = (a.failure + b.failure) % uintMod) ∧
    (∀ c : Counter, c.success < uintMod → c.failure < uintMod →
      c.add ⟨0, 0⟩ = c) ∧
    (∀ a b c : Counter, (a.add b).add c = a.add (b.add c)) ∧
    (∀ a b : Counter, a.add b = b.add a) := by
  refine ⟨fun a b => ⟨rfl, rfl⟩, fun c hs hf => ?_, fun a b c => ?_, fun a b => ?_⟩
  · cases c with
    | mk s f =>
      simp only [Counter.add, Counter.mk.injEq, Nat.add_zero]
      exact ⟨Nat.mod_eq_of_lt hs, Nat.mod_eq_of_lt hf⟩
  · cases a; cases b; cases c
    simp only [Counter.add, Counter.mk.injEq]
    constructor <;> simp [Nat.mod_add_mod, Nat.add_mod_mod, Nat.add_assoc]
  · cases a; cases b
    simp [Counter.add, Nat.add_comm]

/-- Witness for C9 at a concrete input: merging `{0, 0}` into `{2, 3}`
leaves it unchanged. -/
theorem counter_merge_algebra_witness :
    Counter.add ⟨2, 3⟩ ⟨0, 0⟩ = ⟨2, 3⟩ :=
  counter_merge_algebra.2.1 ⟨2, 3⟩ (by decide) (by decide)

/-- C10: when parameters are reported, a param whose formatted value is the
empty string — including a genuinely empty `std::string`, for which
`ToString` is well-defined and returns the argument itself — is rendered as
the `-No debug string-` warning instead of its value, making it
indistinguishable in the report from a type with no usable string
conversion. -/
theorem empty_string_param_warning (v : Nat) (tabs n : String) :
    ToString_string "" = "" ∧
    Param.Log tabs v [⟨n, ToString_string ""⟩] = Param.Log tabs v [⟨n, ToString_fallback⟩] ∧
    noDebugString ∈ Param.Log tabs v [⟨n, ToString_string ""⟩] := by
  refine ⟨rfl, rfl, ?_⟩
  simp only [Param.Log, ToString_string, List.flatMap_cons, List.flatMap_nil, List.append_nil,
    if_pos rfl]
  by_cases h : (v &&& Verbosity.ParamsName) != 0 <;> simp [h]

/-! ### Helper lemmas on the assertion pipeline -/

/-- Success component of a single counter update. -/
theorem counterUpdate_success (c : Counter) (p : Bool) :
    (c.Update p).success = if p then (c.success + 1) % uintMod else c.success := by
  cases p <;> rfl

/-- Failure component of a single counter update. -/
theorem counterUpdate_failure (c : Counter) (p : Bool) :
    (c.Update p).failure = if p then c.failure else (c.failure + 1) % uintMod := by
  cases p <;> rfl

/-- Closed form of iterated counter updates: starting in unsigned range, the
final fields are the initial fields plus the number of passing respectively
failing predicates, modulo `2^32`. -/
theorem foldUpdate_spec :
    ∀ (l : List Bool) (c : Counter), c.success < uintMod → c.failure < uintMod →
    (foldUpdate c l).success = (c.success + l.count true) % uintMod ∧
    (foldUpdate c l).failure = (c.failure + l.count false) % uintMod := by
  intro l
  induction l with
  | nil =>
    intro c hs hf
    simp [foldUpdate, Nat.mod_eq_of_lt hs, Nat.mod_eq_of_lt hf]
  | cons p rest ih =>
    intro c hs hf
    have hub : 0 < uintMod := by decide
    have hstep : foldUpdate c (p :: rest) = foldUpdate (c.Update p) rest := rfl
    have hs' : (c.Update p).success < uintMod := by
      rw [counterUpdate_success]
      cases p
      · simpa using hs
      · simpa using Nat.mod_lt (c.success + 1) hub
    have hf' : (c.Update p).failure < uintMod := by
      rw [counterUpdate_failure]
      cases p
      · simpa using Nat.mod_lt (c.failure + 1) hub
      · simpa using hf
    obtain ⟨h1, h2⟩ := ih (c.Update p) hs' hf'
    rw [hstep, h1, h2, counterUpdate_success, counterUpdate_failure]
    cases p <;> simp [List.count_cons] <;> unfold uintMod <;> omega

/-- State effect of one run of the per-assertion pipeline: the global
counter and the top group are always updated; the exit value becomes
`EXIT_FAILURE` exactly when the predicate fails; nothing else changes. -/
theorem runAssertion_state (s : State) (p : Bool) :
    (runAssertion s p).1 =
      { s with globalCount := s.globalCount.Update p,
               sGroups := Group.Update s.sGroups p,
               exit := if p then s.exit else EXIT_FAILURE } := by
  cases p
  · rfl
  · simp only [runAssertion, Intl.Update, Intl.ComputeResult, if_true]
    split <;> rfl

/-- The global counter after a run is the fold of `Counter::Update` over the
predicates — one update per assertion, independent of verbosity and of the
group stack. -/
theorem runAssertions_globalCount :
    ∀ (l : List Bool) (s : State),
    (runAssertions s l).1.globalCount = foldUpdate s.globalCount l := by
  intro l
  induction l with
  | nil => intro s; rfl
  | cons p rest ih =>
    intro s
    show (runAssertions (runAssertion s p).1 rest).1.globalCount = _
    rw [ih, runAssertion_state]
    rfl

/-- The exit value after a run: `EXIT_FAILURE` as soon as some predicate in
the run failed, otherwise unchanged (the flag is sticky in the current
header: `ComputeResult` only ever assigns `EXIT_FAILURE`). -/
theorem runAssertions_exit :
    ∀ (l : List Bool) (s : State),
    (runAssertions s l).1.exit =
      if l.any (· == false) then EXIT_FAILURE else s.exit := by
  intro l
  induction l with
  | nil => intro s; simp [runAssertions]
  | cons p rest ih =>
    intro s
    show (runAssertions (runAssertion s p).1 rest).1.exit = _
    rw [ih, runAssertion_state]
    cases p <;> simp

/-- Counting passes and failures exhausts a boolean predicate list. -/
theorem count_true_add_count_false :
    ∀ l : List Bool, l.count true + l.count false = l.length := by
  intro l
  induction l with
  | nil => rfl
  | cons p rest ih => cases p <;> simp [List.count_cons] <;> omega

/-- A boolean list contains a failure iff its failure count is positive. -/
theorem any_false_iff :
    ∀ l : List Bool, (l.any (· == false) = true) ↔ 0 < l.count false := by
  intro l
  rw [List.any_eq_true]
  constructor
  · rintro ⟨x, hx, hb⟩
    have hxf : x = false := by simpa using hb
    subst hxf
    exact List.count_pos_iff.mpr hx
  · intro h
    exact ⟨false, List.count_pos_iff.mp h, by simp⟩

/-- Stack effect of running a predicate sequence with a group open: only the
top group changes — its counter is folded over the predicates and its
`localExit` becomes set as soon as one predicate fails. -/
theorem runAssertions_sGroups :
    ∀ (l : List Bool) (s : State) (g : Group) (rest : List Group),
    s.sGroups = g :: rest →
    (runAssertions s l).1.sGroups =
      { name := g.name,
        localExit := g.localExit || l.any (· == false),
        count := foldUpdate g.count l } :: rest := by
  intro l
  induction l with
  | nil =>
    intro s g rest hs
    simpa [runAssertions, foldUpdate] using hs
  | cons p rest' ih =>
    intro s g rest hs
    show (runAssertions (runAssertion s p).1 rest').1.sGroups = _
    have hsg : (runAssertion s p).1.sGroups =
        { g with count := g.count.Update p,
                 localExit := if p then g.localExit else true } :: rest := by
      rw [runAssertion_state]
      simp [Group.Update, hs]
    rw [ih _ _ _ hsg]
    cases p <;> simp [foldUpdate, Bool.or_assoc]

/-- With a non-empty stack, `Group::End` pops the top group, spreads it into
the remaining stack and counts it in the global group counter. -/
theorem groupEnd_eq (s : State) (g : Group) (rest : List Group)
    (hs : s.sGroups = g :: rest) :
    Group.End s = .ok (g,
      { s with sGroups := spreadInto g rest,
               groupGlobalCount := s.groupGlobalCount.Update (!g.localExit) },
      groupEndEvents s g) := by
  simp only [Group.End, hs]

/-- Events of a silent all-passing run: when `Verbosity::Success` is unset
and every predicate passes, no assertion produces any report event. -/
theorem runAssertions_events_silent :
    ∀ (l : List Bool) (s : State), s.verbosity &&& Verbosity.Success = 0 →
    (∀ p ∈ l, p = true) → (runAssertions s l).2 = [] := by
  intro l
  induction l with
  | nil => intro s _ _; rfl
  | cons p rest ih =>
    intro s hv hl
    have hp : p = true := hl p (List.mem_cons_self p rest)
    subst hp
    have hra : runAssertion s true = (Intl.Update s true, []) := by
      simp [runAssertion, Intl.ShouldComputeTest, Intl.Update, hv]
    show ((runAssertion s true).2 ++ (runAssertions (runAssertion s true).1 rest).2) = []
    rw [hra]
    simp only [List.nil_append]
    exact ih _ (by simpa [Intl.Update] using hv) (fun q hq => hl q (List.mem_cons_of_mem _ hq))

/-- Running a predicate sequence with group `g` on top of the stack and then
calling `Group::End` pops exactly the updated `g` and spreads it into the
remaining stack. -/
theorem endAfterRun (s5 : State) (g : Group) (rest : List Group) (l : List Bool)
    (hs : s5.sGroups = g :: rest) :
    ∃ (g' : Group) (s' : State) (ev : List Event),
      Group.End (runAssertions s5 l).1 = .ok (g', s', ev) ∧
      g' = ⟨g.name, g.localExit || l.any (· == false), foldUpdate g.count l⟩ ∧
      s'.sGroups = spreadInto g' rest := by
  have h := runAssertions_sGroups l s5 g rest hs
  exact ⟨_, _, _, groupEnd_eq _ _ _ h, rfl, rfl⟩

/-! ### Claims on the engine -/

/-- C1: for every sequence of recorded assertions (of any length below the
unsigned wraparound bound) with `k` failing predicates, run from a state
with a fresh global counter and exit `EXIT_SUCCESS` — arbitrary verbosity
and arbitrary group stack — the global counter ends with
`success = N - k` and `failure = k`, and the process exit value
(`Intl::Exit`) is `EXIT_FAILURE` iff `k > 0` and `EXIT_SUCCESS` iff
`k = 0`. -/
theorem run_global_counter_exit (s : State) (l : List Bool)
    (hg : s.globalCount = ⟨0, 0⟩) (hx : s.exit = EXIT_SUCCESS)
    (hlen : l.length < uintMod) :
    (runAssertions s l).1.globalCount.success = l.length - l.count false ∧
    (runAssertions s l).1.globalCount.failure = l.count false ∧
    (Intl.Exit (runAssertions s l).1 = EXIT_FAILURE ↔ 0 < l.count false) ∧
    (Intl.Exit (runAssertions s l).1 = EXIT_SUCCESS ↔ l.count false = 0) := by
  have hgc := runAssertions_globalCount l s
  rw [hg] at hgc
  obtain ⟨h1, h2⟩ := foldUpdate_spec l ⟨0, 0⟩ (by decide) (by decide)
  have hct : l.count true ≤ l.length := List.count_le_length _ _
  have hcf : l.count false ≤ l.length := List.count_le_length _ _
  have hsum := count_true_add_count_false l
  have hex := runAssertions_exit l s
  rw [hx] at hex
  have hfe : (runAssertions s l).1.exit =
      if 0 < l.count false then EXIT_FAILURE else EXIT_SUCCESS := by
    rw [hex]
    by_cases hb : l.any (· == false) = true
    · rw [if_pos hb, if_pos ((any_false_iff l).mp hb)]
    · rw [if_neg hb, if_neg (fun hc => hb ((any_false_iff l).mpr hc))]
  refine ⟨?_, ?_, ?_, ?_⟩
  · rw [hgc, h1]
    simp only []
    unfold uintMod at *
    omega
  · rw [hgc, h2]
    simp only []
    unfold uintMod at *
    omega
  · show (runAssertions s l).1.exit = EXIT_FAILURE ↔ _
    rw [hfe]
    by_cases hc : 0 < l.count false
    · rw [if_pos hc]
      exact iff_of_true rfl hc
    · rw [if_neg hc]
      exact iff_of_false (by decide) hc
  · show (runAssertions s l).1.exit = EXIT_SUCCESS ↔ _
    rw [hfe]
    by_cases hc : 0 < l.count false
    · rw [if_pos hc]
      exact iff_of_false (by decide) (by omega)
    · rw [if_neg hc]
      exact iff_of_true rfl (by omega)

/-- Witness for C1 at the concrete run `[true, false, true]` from the
initial state: global counter `{2, 1}` and exit `EXIT_FAILURE`. -/
theorem run_global_counter_exit_witness :
    (runAssertions initState [true, false, true]).1.globalCount.success = 2 ∧
    (runAssertions initState [true, false, true]).1.globalCount.failure = 1 ∧
    Intl.Exit (runAssertions initState [true, false, true]).1 = EXIT_FAILURE := by
  have h := run_global_counter_exit initState [true, false, true] rfl rfl (by decide)
  refine ⟨?_, ?_, h.2.2.1.mpr (by decide)⟩
  · rw [h.1]; decide
  · rw [h.2.1]; decide

/-- C6: ending a group when no group is open fails: `Group::End` on an
empty stack has no defined successful result (`std::stack::top` on an empty
stack is a contract violation), modeled as an error — it does not return a
meaningful group. -/
theorem groupEnd_empty_fatal (s : State) (hs : s.sGroups = []) :
    Group.End s = .error "Group::End called with no group begun" := by
  simp only [Group.End, hs]

/-- Witness for C6: `Group::End` from the initial state (no group begun)
errors out. -/
theorem groupEnd_empty_fatal_witness :
    Group.End initState = .error "Group::End called with no group begun" :=
  groupEnd_empty_fatal initState rfl

/-- C8: counting always happens while reporting is verbosity-gated — with
`Verbosity::Success` unset and every assertion passing, the run emits zero
title/param/result sink invocations, yet the global counter still ends at
`{success := N, failure := 0}`. -/
theorem silent_success_run (s : State) (l : List Bool)
    (hv : s.verbosity &&& Verbosity.Success = 0)
    (hl : ∀ p ∈ l, p = true)
    (hg : s.globalCount = ⟨0, 0⟩)
    (hlen : l.length < uintMod) :
    (runAssertions s l).2 = [] ∧
    (runAssertions s l).1.globalCount = ⟨l.length, 0⟩ := by
  refine ⟨runAssertions_events_silent l s hv hl, ?_⟩
  have hgc := runAssertions_globalCount l s
  rw [hg] at hgc
  obtain ⟨h1, h2⟩ := foldUpdate_spec l ⟨0, 0⟩ (by decide) (by decide)
  have hct : l.count true = l.length := by
    have hsum := count_true_add_count_false l
    have hcf : l.count false = 0 := by
      rw [List.count_eq_zero]
      intro hmem
      exact absurd (hl false hmem) (by simp)
    omega
  have hcf : l.count false = 0 := by
    have hsum := count_true_add_count_false l
    omega
  rw [hgc]
  rcases hfu : foldUpdate ⟨0, 0⟩ l with ⟨cs, cf⟩
  rw [hfu] at h1 h2
  simp only [Counter.mk.injEq] at h1 h2 ⊢
  rw [hct] at h1
  rw [hcf] at h2
  constructor
  · simpa [Nat.mod_eq_of_lt hlen] using h1
  · simpa using h2

/-- Witness for C8: two passing assertions under `Verbosity::Light` (which
has `Success` unset) emit no events and count `{2, 0}`. -/
theorem silent_success_run_witness :
    (runAssertions { initState with verbosity := Verbosity.Light } [true, true]).2 = [] ∧
    (runAssertions { initState with verbosity := Verbosity.Light } [true, true]).1.globalCount
      = ⟨2, 0⟩ := by
  have h := silent_success_run { initState with verbosity := Verbosity.Light } [true, true]
    (by decide) (by decide) rfl (by decide)
  simpa using h

/-- C4: in the nested scenario `Begin(A)`, assertions `p1`, `Begin(B)`,
assertions `p2`, `End` (popping B), assertions `p3`, `End` (popping A), the
first `End` returns B's group with exactly the counts of `p2` and spreads
them into A; the second `End` returns A's group whose counter is the sum of
the assertions recorded directly under A (`p1` and `p3`) plus B's counter,
and B's failure flag, when set, has propagated to A. -/
theorem nested_group_spread (s : State) (a b : String) (p1 p2 p3 : List Bool)
    (hlen : p1.length + p2.length + p3.length < uintMod) :
    ∃ gB gA : Group, run4 s a b p1 p2 p3 = some (gB, gA) ∧
      gB.count.success = p2.count true ∧
      gB.count.failure = p2.count false ∧
      gB.localExit = p2.any (· == false) ∧
      gA.count.success = (p1.count true + p3.count true) + gB.count.success ∧
      gA.count.failure = (p1.count false + p3.count false) + gB.count.failure ∧
      (gB.localExit = true → gA.localExit = true) := by
  have hub : 0 < uintMod := by decide
  have hb1t : p1.count true ≤ p1.length := List.count_le_length _ _
  have hb1f : p1.count false ≤ p1.length := List.count_le_length _ _
  have hb2t : p2.count true ≤ p2.length := List.count_le_length _ _
  have hb2f : p2.count false ≤ p2.length := List.count_le_length _ _
  have hb3t : p3.count true ≤ p3.length := List.count_le_length _ _
  have hb3f : p3.count false ≤ p3.length := List.count_le_length _ _
  obtain ⟨e1s, e1f⟩ := foldUpdate_spec p1 ⟨0, 0⟩ (by decide) (by decide)
  obtain ⟨e2s, e2f⟩ := foldUpdate_spec p2 ⟨0, 0⟩ (by decide) (by decide)
  -- the stack through the four phases
  have h1 : (Group.Begin s a).1.sGroups = (⟨a, false, ⟨0, 0⟩⟩ : Group) :: s.sGroups := rfl
  have h2 : (runAssertions (Group.Begin s a).1 p1).1.sGroups
      = (⟨a, p1.any (· == false), foldUpdate ⟨0, 0⟩ p1⟩ : Group) :: s.sGroups :=
    runAssertions_sGroups p1 _ _ _ h1
  have h3 : (Group.Begin (runAssertions (Group.Begin s a).1 p1).1 b).1.sGroups
      = (⟨b, false, ⟨0, 0⟩⟩ : Group)
        :: (⟨a, p1.any (· == false), foldUpdate ⟨0, 0⟩ p1⟩ : Group) :: s.sGroups := by
    show (⟨b, false, ⟨0, 0⟩⟩ : Group) :: (runAssertions (Group.Begin s a).1 p1).1.sGroups = _
    rw [h2]
  -- end of group B
  obtain ⟨gB1, s5, ev5, hEndB, hgB1, hs5⟩ :=
    endAfterRun _ ⟨b, false, ⟨0, 0⟩⟩
      ((⟨a, p1.any (· == false), foldUpdate ⟨0, 0⟩ p1⟩ : Group) :: s.sGroups) p2 h3
  have hs5' : s5.sGroups
      = Group.Spread gB1 ⟨a, p1.any (· == false), foldUpdate ⟨0, 0⟩ p1⟩ :: s.sGroups := hs5
  -- end of group A
  obtain ⟨gA1, s7, ev7, hEndA, hgA1, hs7⟩ :=
    endAfterRun s5 (Group.Spread gB1 ⟨a, p1.any (· == false), foldUpdate ⟨0, 0⟩ p1⟩)
      s.sGroups p3 hs5'
  -- extracted components of the two popped groups
  have hgBc : gB1.count = foldUpdate ⟨0, 0⟩ p2 := by rw [hgB1]
  have hgBe : gB1.localExit = p2.any (· == false) := by rw [hgB1]; rfl
  have hgAc : gA1.count = foldUpdate ((foldUpdate ⟨0, 0⟩ p1).add (foldUpdate ⟨0, 0⟩ p2)) p3 := by
    rw [hgA1]
    simp only [Group.Spread]
    rw [hgBc]
  have hgAe : gA1.localExit
      = ((if gB1.localExit then true else p1.any (· == false)) || p3.any (· == false)) := by
    rw [hgA1]
    simp only [Group.Spread]
  have hubs : ((foldUpdate ⟨0, 0⟩ p1).add (foldUpdate ⟨0, 0⟩ p2)).success < uintMod :=
    Nat.mod_lt _ hub
  have hubf : ((foldUpdate ⟨0, 0⟩ p1).add (foldUpdate ⟨0, 0⟩ p2)).failure < uintMod :=
    Nat.mod_lt _ hub
  obtain ⟨e3s, e3f⟩ :=
    foldUpdate_spec p3 ((foldUpdate ⟨0, 0⟩ p1).add (foldUpdate ⟨0, 0⟩ p2)) hubs hubf
  -- numeric components
  have hgBs : gB1.count.success = p2.count true := by
    rw [hgBc, e2s]
    show (0 + p2.count true) % uintMod = p2.count true
    unfold uintMod at *
    omega
  have hgBf : gB1.count.failure = p2.count false := by
    rw [hgBc, e2f]
    show (0 + p2.count false) % uintMod = p2.count false
    unfold uintMod at *
    omega
  refine ⟨gB1, gA1, ?_, hgBs, hgBf, hgBe, ?_, ?_, ?_⟩
  · -- the run itself
    simp only [run4]
    rw [hEndB]
    dsimp only
    rw [hEndA]
  · -- success of A = direct successes + B's successes
    rw [hgAc, e3s, hgBs]
    show (((foldUpdate ⟨0, 0⟩ p1).success + (foldUpdate ⟨0, 0⟩ p2).success) % uintMod
          + p3.count true) % uintMod = p1.count true + p3.count true + p2.count true
    rw [e1s, e2s]
    show (((0 + p1.count true) % uintMod + (0 + p2.count true) % uintMod) % uintMod
          + p3.count true) % uintMod = p1.count true + p3.count true + p2.count true
    unfold uintMod at *
    omega
  · -- failure of A = direct failures + B's failures
    rw [hgAc, e3f, hgBf]
    show (((foldUpdate ⟨0, 0⟩ p1).failure + (foldUpdate ⟨0, 0⟩ p2).failure) % uintMod
          + p3.count false) % uintMod = p1.count false + p3.count false + p2.count false
    rw [e1f, e2f]
    show (((0 + p1.count false) % uintMod + (0 + p2.count false) % uintMod) % uintMod
          + p3.count false) % uintMod = p1.count false + p3.count false + p2.count false
    unfold uintMod at *
    omega
  · -- B's failure flag propagates to A
    intro h
    rw [hgAe, h]
    simp

/-- Witness for C4 at a concrete nested run from the initial state:
`Begin A; assert true; Begin B; assert false; End; assert true; End` — B's
group records one failure and A's group records two successes (its own plus
none from B) for a total counted through B's spread. -/
theorem nested_group_spread_witness :
    ∃ gB gA : Group, run4 initState "A" "B" [true] [false] [true] = some (gB, gA) ∧
      gB.count.failure = 1 ∧ gA.count.success = 2 := by
  obtain ⟨gB, gA, h, hbs, hbf, hble, has, haf, himp⟩ :=
    nested_group_spread initState "A" "B" [true] [false] [true] (by decide)
  refine ⟨gB, gA, h, ?_, ?_⟩
  · rw [hbf]; decide
  · rw [has, hbs]; decide

/-- Existential form of `groupEnd_eq`, exposing only the popped group and
the spread stack of the successor state. -/
theorem groupEnd_ex (s : State) (g : Group) (rest : List Group)
    (hs : s.sGroups = g :: rest) :
    ∃ (s' : State) (ev : List Event),
      Group.End s = .ok (g, s', ev) ∧ s'.sGroups = spreadInto g rest :=
  ⟨_, _, groupEnd_eq s g rest hs, rfl⟩

/-- A boolean list has a failing entry iff `false` is a member. -/
theorem any_false_mem (l : List Bool) : (l.any (· == false) = true) ↔ false ∈ l := by
  rw [List.any_eq_true]
  constructor
  · rintro ⟨x, hx, hb⟩
    have hxf : x = false := by simpa using hb
    subst hxf
    exact hx
  · intro h
    exact ⟨false, h, by simp⟩

/-- A boolean list has no failing entry iff `false` is not a member. -/
theorem any_false_not_mem (l : List Bool) : (l.any (· == false) = false) ↔ false ∉ l := by
  constructor
  · intro h hmem
    have hl := (any_false_mem l).mpr hmem
    rw [h] at hl
    exact Bool.false_ne_true hl
  · intro h
    cases hb : l.any (· == false)
    · rfl
    · exact absurd ((any_false_mem l).mp hb) h

/-- Master bookkeeping lemma for well-nested runs, by strong induction on
the size of the item list: running items with group `g` on top of the stack
(fields in unsigned range) leaves the rest of the stack untouched and
replaces `g` by a group with the same name, `localExit` ored with "some
assertion inside failed", and the counter advanced by the recursive
pass/fail counts, modulo `2^32`. -/
theorem runItemsSt_stack_aux :
    ∀ (n : Nat) (l : List Item), sizeOf l ≤ n →
    ∀ (s : State) (g : Group) (rest : List Group),
    s.sGroups = g :: rest → g.count.success < uintMod → g.count.failure < uintMod →
    ∃ c : Counter,
      (runItemsSt s l).sGroups =
        (⟨g.name, g.localExit || (assertsOf l).any (· == false), c⟩ : Group) :: rest ∧
      c.success = (g.count.success + (assertsOf l).count true) % uintMod ∧
      c.failure = (g.count.failure + (assertsOf l).count false) % uintMod := by
  intro n
  induction n with
  | zero =>
    intro l hl
    exfalso
    cases l <;> simp at hl
  | succ k ih =>
    intro l hl s g rest hs hcs hcf
    have hub : 0 < uintMod := by decide
    cases l with
    | nil =>
      refine ⟨g.count, ?_, ?_, ?_⟩
      · simp only [runItemsSt]
        rw [hs]
        simp [assertsOf]
      · simp only [runItemsSt, assertsOf]
        simpa using (Nat.mod_eq_of_lt hcs).symm
      · simp only [runItemsSt, assertsOf]
        simpa using (Nat.mod_eq_of_lt hcf).symm
    | cons i rest' =>
      cases i with
      | assert p =>
        have hsz : sizeOf rest' ≤ k := by
          simp [List.cons.sizeOf_spec] at hl
          omega
        have hsg : (runAssertion s p).1.sGroups =
            ({ g with count := g.count.Update p,
                      localExit := if p then g.localExit else true } : Group) :: rest := by
          rw [runAssertion_state]
          simp [Group.Update, hs]
        have hcs' : (g.count.Update p).success < uintMod := by
          rw [counterUpdate_success]
          cases p
          · simpa using hcs
          · simpa using Nat.mod_lt (g.count.success + 1) hub
        have hcf' : (g.count.Update p).failure < uintMod := by
          rw [counterUpdate_failure]
          cases p
          · simpa using Nat.mod_lt (g.count.failure + 1) hub
          · simpa using hcf
        obtain ⟨c, hc1, hc2, hc3⟩ := ih rest' hsz (runAssertion s p).1 _ rest hsg hcs' hcf'
        refine ⟨c, ?_, ?_, ?_⟩
        · simp only [runItemsSt]
          rw [hc1]
          cases p <;> simp [assertsOf, Bool.or_assoc]
        · rw [show assertsOf (Item.assert p :: rest') = p :: assertsOf rest' from by
            simp [assertsOf]]
          rw [hc2, counterUpdate_success]
          cases p
          · simp [List.count_cons]
          · simp [List.count_cons]
            unfold uintMod
            omega
        · rw [show assertsOf (Item.assert p :: rest') = p :: assertsOf rest' from by
            simp [assertsOf]]
          rw [hc3, counterUpdate_failure]
          cases p
          · simp [List.count_cons]
            unfold uintMod
            omega
          · simp [List.count_cons]
      | group nm items =>
        have hsz1 : sizeOf items ≤ k := by
          simp [List.cons.sizeOf_spec, Item.group.sizeOf_spec] at hl
          omega
        have hsz2 : sizeOf rest' ≤ k := by
          simp [List.cons.sizeOf_spec, Item.group.sizeOf_spec] at hl
          omega
        have hbs : (Group.Begin s nm).1.sGroups = (⟨nm, false, ⟨0, 0⟩⟩ : Group) :: g :: rest := by
          show (⟨nm, false, ⟨0, 0⟩⟩ : Group) :: s.sGroups = _
          rw [hs]
        obtain ⟨c2, hi1, hi2, hi3⟩ :=
          ih items hsz1 (Group.Begin s nm).1 ⟨nm, false, ⟨0, 0⟩⟩ (g :: rest) hbs hub hub
        obtain ⟨s3, ev3, hEnd, hs3⟩ :=
          groupEnd_ex _ (⟨nm, (assertsOf items).any (· == false), c2⟩ : Group) (g :: rest) hi1
        have hs3' : s3.sGroups =
            Group.Spread ⟨nm, (assertsOf items).any (· == false), c2⟩ g :: rest := hs3
        have hbs2 : (Group.Spread ⟨nm, (assertsOf items).any (· == false), c2⟩ g).count.success
            < uintMod := Nat.mod_lt _ hub
        have hbf2 : (Group.Spread ⟨nm, (assertsOf items).any (· == false), c2⟩ g).count.failure
            < uintMod := Nat.mod_lt _ hub
        obtain ⟨c, ho1, ho2, ho3⟩ :=
          ih rest' hsz2 s3 (Group.Spread ⟨nm, (assertsOf items).any (· == false), c2⟩ g)
            rest hs3' hbs2 hbf2
        refine ⟨c, ?_, ?_, ?_⟩
        · simp only [runItemsSt]
          rw [hEnd]
          dsimp only
          rw [ho1]
          rw [show assertsOf (Item.group nm items :: rest')
              = assertsOf items ++ assertsOf rest' from by simp [assertsOf]]
          simp only [Group.Spread, List.any_append]
          cases hx : (assertsOf items).any (· == false) <;> cases hy : g.localExit <;> simp
        · rw [ho2]
          show ((g.count.success + c2.success) % uintMod + (assertsOf rest').count true) % uintMod
              = (g.count.success + (assertsOf (Item.group nm items :: rest')).count true) % uintMod
          rw [hi2]
          rw [show assertsOf (Item.group nm items :: rest')
              = assertsOf items ++ assertsOf rest' from by simp [assertsOf]]
          show ((g.count.success + (0 + (assertsOf items).count true) % uintMod) % uintMod
                + (assertsOf rest').count true) % uintMod
              = (g.count.success + (assertsOf items ++ assertsOf rest').count true) % uintMod
          rw [List.count_append]
          unfold uintMod
          omega
        · rw [ho3]
          show ((g.count.failure + c2.failure) % uintMod + (assertsOf rest').count false) % uintMod
              = (g.count.failure + (assertsOf (Item.group nm items :: rest')).count false) % uintMod
          rw [hi3]
          rw [show assertsOf (Item.group nm items :: rest')
              = assertsOf items ++ assertsOf rest' from by simp [assertsOf]]
          show ((g.count.failure + (0 + (assertsOf items).count false) % uintMod) % uintMod
                + (assertsOf rest').count false) % uintMod
              = (g.count.failure + (assertsOf items ++ assertsOf rest').count false) % uintMod
          rw [List.count_append]
          unfold uintMod
          omega

/-- C5: for every group, with any body of directly recorded assertions and
arbitrarily nested child groups, run from an arbitrary state, the group
popped by its `End` has `localFailed = false` iff every assertion recorded
in it (directly or in a nested child group) passed, and `localFailed = true`
iff at least one such assertion failed. -/
theorem group_localExit_iff_any_failure (s : State) (n : String) (items : List Item) :
    ∃ g : Group, runGroup s n items = some g ∧
      (g.localExit = false ↔ false ∉ assertsOf items) ∧
      (g.localExit = true ↔ false ∈ assertsOf items) := by
  have hbs : (Group.Begin s n).1.sGroups = (⟨n, false, ⟨0, 0⟩⟩ : Group) :: s.sGroups := rfl
  obtain ⟨c, h1, h2, h3⟩ := runItemsSt_stack_aux (sizeOf items) items (Nat.le_refl _)
      (Group.Begin s n).1 ⟨n, false, ⟨0, 0⟩⟩ s.sGroups hbs
      (show (0 : Nat) < uintMod by decide) (show (0 : Nat) < uintMod by decide)
  obtain ⟨s', ev, hEnd, _⟩ :=
    groupEnd_ex _ (⟨n, (assertsOf items).any (· == false), c⟩ : Group) s.sGroups h1
  refine ⟨⟨n, (assertsOf items).any (· == false), c⟩, ?_, ?_, ?_⟩
  · simp only [runGroup]
    rw [hEnd]
  · show ((assertsOf items).any (· == false) = false ↔ _)
    exact any_false_not_mem _
  · show ((assertsOf items).any (· == false) = true ↔ _)
    exact any_false_mem _

end UTH
